import Mathlib

/-
Verification of the Council dependency-graph coordinator
(`lib/council-server/src/server/graph.rs`).

The Rust data structures are embedded shallowly:
  * `Id` (an opaque 128-bit identifier used only for equality and hashing)
    becomes `Nat`;
  * `String` reply channels stay `String`;
  * `VecDeque<String>` becomes `List String` (front = head);
  * `HashSet<Id>` becomes a duplicate-free `List Id` maintained by
    membership-checking insertion (`hsInsert` / `hsExtend`);
  * `HashMap<K, V>` becomes an association list `List (K × V)` with
    first-occurrence lookup (`alGet`), in-place modification (`alModify`),
    the entry API (`alEntry`) and removal (`alRemove`);
  * `&mut self` methods become functions returning the updated value,
    paired with the Rust return value when there is one;
  * a Rust `panic!` / `.unwrap()` failure is modelled by `Option.none`
    on the function's result.
-/

namespace Council

/-- Modelled from the spec: `Id` is an opaque 128-bit identifier used for
change sets and attribute-value nodes, with equality and hashing only;
it is embedded as `Nat`. -/
abbrev Id := Nat

/-- Modelled from the spec: a submitted dependency graph maps each node id
to the ordered list of node ids it depends upon
(Rust `Graph = HashMap<Id, Vec<Id>>`, embedded as an association list). -/
abbrev Graph := List (Id × List Id)

/-- Modelled from the spec, §7 error taxonomy: the protocol errors raised
by the graph module. -/
inductive Error where
  | UnexpectedJobId
  | ShouldNotBeProcessingByJob
  | UnknownNodeId
  deriving DecidableEq

/-! ## ValueCreationQueue (graph.rs lines 4-43) -/

/-- Rust `ValueCreationQueue`: an optional channel currently processing and
a FIFO queue of waiting channels. -/
structure ValueCreationQueue where
  processing : Option String
  queue : List String
  deriving DecidableEq

/-- Rust `ValueCreationQueue::default()`. -/
def ValueCreationQueue.empty : ValueCreationQueue := ⟨none, []⟩

/-- Rust `ValueCreationQueue::push`: push the channel at the back. -/
def ValueCreationQueue.push (q : ValueCreationQueue) (reply_channel : String) :
    ValueCreationQueue :=
  { q with queue := q.queue ++ [reply_channel] }

/-- Rust `ValueCreationQueue::is_busy`. -/
def ValueCreationQueue.is_busy (q : ValueCreationQueue) : Bool :=
  q.processing.isSome

/-- Rust `ValueCreationQueue::fetch_next`: `None` while busy; otherwise pop
the front of the queue, record it as processing, and return it. -/
def ValueCreationQueue.fetch_next (q : ValueCreationQueue) :
    Option String × ValueCreationQueue :=
  if q.is_busy then (none, q)
  else
    let next_channel := q.queue.head?
    (next_channel, { processing := next_channel, queue := q.queue.tail })

/-- Rust `ValueCreationQueue::finished_processing`: error (leaving the queue
untouched) unless `processing` equals the given channel; clear it on
success. -/
def ValueCreationQueue.finished_processing (q : ValueCreationQueue)
    (reply_channel : String) : Except Error Unit × ValueCreationQueue :=
  if q.processing ≠ some reply_channel then (.error .UnexpectedJobId, q)
  else (.ok (), { q with processing := none })

/-- Rust `ValueCreationQueue::remove`: drop the channel from `processing`
and from the queue. -/
def ValueCreationQueue.remove (q : ValueCreationQueue) (reply_channel : String) :
    ValueCreationQueue :=
  { processing := q.processing.filter (· ≠ reply_channel),
    queue := q.queue.filter (· ≠ reply_channel) }

/-! ## HashSet model -/

/-- `HashSet::insert`-style insertion on a duplicate-free list: append the
element only when absent. -/
def hsInsert (s : List Id) (x : Id) : List Id :=
  if x ∈ s then s else s ++ [x]

/-- `HashSet::extend`: insert each element of the batch in order. -/
def hsExtend (s : List Id) (xs : List Id) : List Id :=
  xs.foldl hsInsert s

/-! ## NodeMetadata (graph.rs lines 45-86) -/

/-- Rust `NodeMetadata`: subscriber channels in insertion order, the single
channel currently processing the node, and the set of node ids the node
still depends on. -/
structure NodeMetadata where
  wanted_by_reply_channels : List String
  processing_reply_channel : Option String
  depends_on_node_ids : List Id
  deriving DecidableEq

/-- Rust `NodeMetadata::default()`. -/
def NodeMetadata.empty : NodeMetadata := ⟨[], none, []⟩

/-- Rust `NodeMetadata::merge_metadata`: push the channel at the back of
`wanted_by_reply_channels` unless already present, and union the
dependencies into `depends_on_node_ids`. -/
def NodeMetadata.merge_metadata (n : NodeMetadata) (reply_channel : String)
    (dependencies : List Id) : NodeMetadata :=
  { n with
    wanted_by_reply_channels :=
      if reply_channel ∈ n.wanted_by_reply_channels then
        n.wanted_by_reply_channels
      else n.wanted_by_reply_channels ++ [reply_channel],
    depends_on_node_ids := hsExtend n.depends_on_node_ids dependencies }

/-- Rust `NodeMetadata::remove_dependency`. -/
def NodeMetadata.remove_dependency (n : NodeMetadata) (node_id : Id) :
    NodeMetadata :=
  { n with depends_on_node_ids := n.depends_on_node_ids.filter (· ≠ node_id) }

/-- Rust `NodeMetadata::next_to_process`: when no dependency remains and no
channel is processing, pop the front of `wanted_by_reply_channels` into
`processing_reply_channel` and return it; otherwise return `none` and leave
the node untouched. -/
def NodeMetadata.next_to_process (n : NodeMetadata) :
    Option String × NodeMetadata :=
  if n.depends_on_node_ids.isEmpty && n.processing_reply_channel.isNone then
    let p := n.wanted_by_reply_channels.head?
    (p, { n with processing_reply_channel := p,
                 wanted_by_reply_channels := n.wanted_by_reply_channels.tail })
  else (none, n)

/-- Rust `NodeMetadata::is_empty`. -/
def NodeMetadata.is_empty (n : NodeMetadata) : Bool :=
  n.wanted_by_reply_channels.isEmpty && n.processing_reply_channel.isNone

/-- Rust `NodeMetadata::remove_channel`: retain only the other channels in
`wanted_by_reply_channels`; clear `processing_reply_channel` if it equals
the given channel. -/
def NodeMetadata.remove_channel (n : NodeMetadata) (reply_channel : String) :
    NodeMetadata :=
  { n with
    wanted_by_reply_channels :=
      n.wanted_by_reply_channels.filter (· ≠ reply_channel),
    processing_reply_channel :=
      n.processing_reply_channel.filter (· ≠ reply_channel) }

/-! ## Association-list model of HashMap -/

/-- `HashMap::get`: first entry with the given key. -/
def alGet {α : Type} (k : Id) : List (Id × α) → Option α
  | [] => none
  | (k', v) :: rest => if k' = k then some v else alGet k rest

/-- `HashMap::get_mut`-style update of the entry with the given key
(no-op when the key is absent). -/
def alModify {α : Type} (k : Id) (f : α → α) : List (Id × α) → List (Id × α)
  | [] => []
  | (k', v) :: rest =>
    if k' = k then (k', f v) :: rest else (k', v) :: alModify k f rest

/-- `HashMap::entry(k).and_modify(f).or_insert(d)`. -/
def alEntry {α : Type} (k : Id) (f : α → α) (d : α) :
    List (Id × α) → List (Id × α)
  | [] => [(k, d)]
  | (k', v) :: rest =>
    if k' = k then (k', f v) :: rest else (k', v) :: alEntry k f d rest

/-- `HashMap::remove`. -/
def alRemove {α : Type} (k : Id) (m : List (Id × α)) : List (Id × α) :=
  m.filter (fun e => e.1 ≠ k)

/-- One change set's node map (Rust `HashMap<Id, NodeMetadata>`). -/
abbrev NodeMap := List (Id × NodeMetadata)

/-! ## ChangeSetGraph (graph.rs lines 88-205) -/

/-- Rust `ChangeSetGraph`: change-set id ↦ node id ↦ metadata. -/
structure ChangeSetGraph where
  dependency_data : List (Id × NodeMap)
  deriving DecidableEq

/-- Rust `ChangeSetGraph::is_empty`. -/
def ChangeSetGraph.is_empty (g : ChangeSetGraph) : Bool :=
  g.dependency_data.isEmpty

/-- The inner loop of `ChangeSetGraph::fetch_all_available`: call
`next_to_process` on every node of one change set, collecting the
newly-claimed `(channel, node)` pairs. -/
def fetchNodes : NodeMap → List (String × Id) × NodeMap
  | [] => ([], [])
  | (id, metadata) :: rest =>
    (match (metadata.next_to_process).1 with
     | some reply_channel => (reply_channel, id) :: (fetchNodes rest).1
     | none => (fetchNodes rest).1,
     (id, (metadata.next_to_process).2) :: (fetchNodes rest).2)

/-- The outer loop of `ChangeSetGraph::fetch_all_available` over all change
sets. -/
def fetchGraphs : List (Id × NodeMap) → List (String × Id) × List (Id × NodeMap)
  | [] => ([], [])
  | (cs, m) :: rest =>
    ((fetchNodes m).1 ++ (fetchGraphs rest).1,
     (cs, (fetchNodes m).2) :: (fetchGraphs rest).2)

/-- Rust `ChangeSetGraph::fetch_all_available`: scan every node of every
change set, claiming each available one, and return the claimed pairs. -/
def ChangeSetGraph.fetch_all_available (g : ChangeSetGraph) :
    List (String × Id) × ChangeSetGraph :=
  ((fetchGraphs g.dependency_data).1, ⟨(fetchGraphs g.dependency_data).2⟩)

/-- One `entry(..).and_modify(..).or_insert_with(..)` step of
`merge_dependency_graph`: upsert the node and merge the metadata. -/
def mergeNode (m : NodeMap) (node_id : Id) (reply_channel : String)
    (dependencies : List Id) : NodeMap :=
  alEntry node_id (fun node => node.merge_metadata reply_channel dependencies)
    (NodeMetadata.empty.merge_metadata reply_channel dependencies) m

/-- The body of `merge_dependency_graph`'s loop for one
`(attribute_value_id, dependencies)` pair: upsert the declared node with its
dependencies, then upsert every dependency with no dependencies of its
own. -/
def mergeEntry (m : NodeMap) (reply_channel : String) (node_id : Id)
    (dependencies : List Id) : NodeMap :=
  (dependencies).foldl (fun acc d => mergeNode acc d reply_channel [])
    (mergeNode m node_id reply_channel dependencies)

/-- `merge_dependency_graph`'s loop over the submitted graph. -/
def mergeGraphData (m : NodeMap) (reply_channel : String)
    (new_dependency_data : Graph) : NodeMap :=
  new_dependency_data.foldl (fun acc e => mergeEntry acc reply_channel e.1 e.2) m

/-- Rust `ChangeSetGraph::merge_dependency_graph`: upsert the change set's
node map (`entry(change_set_id).or_default()`) and merge the submitted
graph into it. -/
def ChangeSetGraph.merge_dependency_graph (g : ChangeSetGraph)
    (reply_channel : String) (new_dependency_data : Graph)
    (change_set_id : Id) : Except Error ChangeSetGraph :=
  .ok ⟨alEntry change_set_id
        (fun m => mergeGraphData m reply_channel new_dependency_data)
        (mergeGraphData [] reply_channel new_dependency_data)
        g.dependency_data⟩

/-- Rust `ChangeSetGraph::mark_node_as_processed`.  The result is `none`
when the Rust code panics (the `.unwrap()` on the change-set lookup);
otherwise it is the `Result` paired with the updated graph (the graph is
returned unchanged on the early error returns, which in Rust happen before
any mutation). -/
def ChangeSetGraph.mark_node_as_processed (g : ChangeSetGraph)
    (reply_channel : String) (change_set_id : Id) (node_id : Id) :
    Option (Except Error (List String) × ChangeSetGraph) :=
  match alGet change_set_id g.dependency_data with
  | none => none
  | some change_set_graph_data =>
    match alGet node_id change_set_graph_data with
    | none => some (.error .UnknownNodeId, g)
    | some node_metadata =>
      if node_metadata.processing_reply_channel ≠ some reply_channel then
        some (.error .ShouldNotBeProcessingByJob, g)
      else
        let node_metadata' : NodeMetadata :=
          { node_metadata with
            processing_reply_channel := none,
            wanted_by_reply_channels :=
              node_metadata.wanted_by_reply_channels.filter
                (· ≠ reply_channel) }
        if node_metadata'.depends_on_node_ids.isEmpty then
          let csd' : NodeMap :=
            (alRemove node_id change_set_graph_data).map
              (fun e => (e.1, e.2.remove_dependency node_id))
          let dd' : List (Id × NodeMap) :=
            if csd'.isEmpty then alRemove change_set_id g.dependency_data
            else alModify change_set_id (fun _ => csd') g.dependency_data
          some (.ok node_metadata'.wanted_by_reply_channels, ⟨dd'⟩)
        else
          some (.ok [],
            ⟨alModify change_set_id
              (fun csd => alModify node_id (fun _ => node_metadata') csd)
              g.dependency_data⟩)

/-- The body of `ChangeSetGraph::remove_channel` on one change set's node
map: remove the channel from every node, collect the ids of the nodes that
became empty, then remove those ids. -/
def removeChannelMap (m : NodeMap) (reply_channel : String) : NodeMap :=
  let m' := m.map (fun e => (e.1, e.2.remove_channel reply_channel))
  let to_remove := (m'.filter (fun e => e.2.is_empty)).map (·.1)
  m'.filter (fun e => e.1 ∉ to_remove)

/-- Rust `ChangeSetGraph::remove_channel`: when the change set exists,
rewrite its node map with `removeChannelMap`; the change-set entry itself
is never removed here. -/
def ChangeSetGraph.remove_channel (g : ChangeSetGraph) (change_set_id : Id)
    (reply_channel : String) : ChangeSetGraph :=
  match alGet change_set_id g.dependency_data with
  | none => g
  | some _ =>
    ⟨alModify change_set_id (fun m => removeChannelMap m reply_channel)
      g.dependency_data⟩

/-! ## Invariants -/

/-- Spec §8 property 2 at one node: `processing` is populated only when
`depends_on` is empty. -/
def NodeMetadata.no_premature_claim (n : NodeMetadata) : Bool :=
  n.processing_reply_channel.isNone || n.depends_on_node_ids.isEmpty

/-- Spec §8 property 2 over the whole graph. -/
def ChangeSetGraph.inv_no_premature (g : ChangeSetGraph) : Bool :=
  g.dependency_data.all (fun cs => cs.2.all (fun e => e.2.no_premature_claim))

/-- The subscriber list of node `k` in map `m` (empty when absent). -/
def wantedOf (k : Id) (m : NodeMap) : List String :=
  match alGet k m with
  | some n => n.wanted_by_reply_channels
  | none => []

/-- The dependency set of node `k` in map `m` (empty when absent). -/
def depsOf (k : Id) (m : NodeMap) : List Id :=
  match alGet k m with
  | some n => n.depends_on_node_ids
  | none => []

/-! ## Queue scenarios -/

/-- Fold of `push` over a batch of channels. -/
def pushAll (q : ValueCreationQueue) (chs : List String) : ValueCreationQueue :=
  chs.foldl ValueCreationQueue.push q

/-- `n` rounds, each a `fetch_next` immediately followed (when a channel was
fetched) by `finished_processing` of that channel; returns the fetched
channels in fetch order. -/
def fetchFinishRounds (q : ValueCreationQueue) : Nat → List String
  | 0 => []
  | n + 1 =>
    let (r, q') := q.fetch_next
    match r with
    | none => fetchFinishRounds q' n
    | some ch => ch :: fetchFinishRounds (q'.finished_processing ch).2 n

/-! ## Basic lemmas about the HashSet model -/

theorem mem_hsInsert {s : List Id} {x y : Id} :
    x ∈ hsInsert s y ↔ x ∈ s ∨ x = y := by
  by_cases h : y ∈ s
  · simp only [hsInsert, if_pos h]
    exact ⟨Or.inl, fun hx => hx.elim id (fun e => e ▸ h)⟩
  · simp [hsInsert, if_neg h]

theorem mem_hsExtend {xs s : List Id} {x : Id} :
    x ∈ hsExtend s xs ↔ x ∈ s ∨ x ∈ xs := by
  induction xs generalizing s with
  | nil => simp [hsExtend]
  | cons y ys ih =>
    show x ∈ hsExtend (hsInsert s y) ys ↔ _
    rw [ih, mem_hsInsert]
    simp only [List.mem_cons]
    tauto

theorem hsExtend_eq_of_subset {xs s : List Id} (h : ∀ x ∈ xs, x ∈ s) :
    hsExtend s xs = s := by
  induction xs with
  | nil => rfl
  | cons y ys ih =>
    show hsExtend (hsInsert s y) ys = s
    rw [hsInsert, if_pos (h y (by simp))]
    exact ih (fun x hx => h x (by simp [hx]))

theorem hsExtend_nil (s : List Id) : hsExtend s [] = s := rfl

/-! ## C6: ValueCreationQueue FIFO round-trip -/

theorem pushAll_spec (q : ValueCreationQueue) (chs : List String) :
    pushAll q chs = ⟨q.processing, q.queue ++ chs⟩ := by
  induction chs generalizing q with
  | nil => simp [pushAll]
  | cons c cs ih =>
    show pushAll (q.push c) cs = _
    rw [ih]
    simp [ValueCreationQueue.push]

theorem fetchFinishRounds_idle (chs : List String) :
    fetchFinishRounds ⟨none, chs⟩ chs.length = chs := by
  induction chs with
  | nil => rfl
  | cons c cs ih =>
    show fetchFinishRounds ⟨none, c :: cs⟩ (cs.length + 1) = c :: cs
    have h1 : (⟨none, c :: cs⟩ : ValueCreationQueue).fetch_next =
        (some c, ⟨some c, cs⟩) := rfl
    have h2 : ((⟨some c, cs⟩ : ValueCreationQueue).finished_processing c).2 =
        ⟨none, cs⟩ := by
      simp [ValueCreationQueue.finished_processing]
    simp only [fetchFinishRounds, h1, h2]
    exact congrArg (c :: ·) ih

/-- C6: `fetch_next` returns `none` while a channel is processing, otherwise
pops the queue head and marks it processing; `finished_processing ch` fails
with `UnexpectedJobId` and changes nothing unless the current processing
channel equals `ch`, and on success clears it; and for any batch of pushed
channels followed by alternating `fetch_next` / `finished_processing`
rounds, the fetched channels come back in push order. -/
theorem C6_value_creation_queue_fifo :
    (∀ q : ValueCreationQueue, q.is_busy = true → q.fetch_next = (none, q)) ∧
    (∀ q : ValueCreationQueue, q.is_busy = false →
      q.fetch_next = (q.queue.head?, ⟨q.queue.head?, q.queue.tail⟩)) ∧
    (∀ (q : ValueCreationQueue) (ch : String), q.processing ≠ some ch →
      q.finished_processing ch = (.error .UnexpectedJobId, q)) ∧
    (∀ (q : ValueCreationQueue) (ch : String), q.processing = some ch →
      q.finished_processing ch = (.ok (), { q with processing := none })) ∧
    (∀ chs : List String,
      fetchFinishRounds (pushAll ValueCreationQueue.empty chs) chs.length = chs) := by
  refine ⟨?_, ?_, ?_, ?_, ?_⟩
  · intro q h
    simp [ValueCreationQueue.fetch_next, h]
  · intro q h
    simp [ValueCreationQueue.fetch_next, h]
  · intro q ch h
    simp [ValueCreationQueue.finished_processing, h]
  · intro q ch h
    simp [ValueCreationQueue.finished_processing, h]
  · intro chs
    rw [pushAll_spec]
    exact fetchFinishRounds_idle chs

/-- Concrete instantiation of `C6_value_creation_queue_fifo`. -/
theorem C6_value_creation_queue_fifo_witness :
    (⟨some "a", ["b"]⟩ : ValueCreationQueue).fetch_next =
      (none, ⟨some "a", ["b"]⟩) ∧
    (⟨none, ["a", "b"]⟩ : ValueCreationQueue).fetch_next =
      (some "a", ⟨some "a", ["b"]⟩) ∧
    (⟨some "a", []⟩ : ValueCreationQueue).finished_processing "b" =
      (.error .UnexpectedJobId, ⟨some "a", []⟩) ∧
    (⟨some "a", []⟩ : ValueCreationQueue).finished_processing "a" =
      (.ok (), ⟨none, []⟩) ∧
    fetchFinishRounds (pushAll ValueCreationQueue.empty ["a", "b"]) 2 =
      ["a", "b"] := by
  exact ⟨C6_value_creation_queue_fifo.1 _ rfl,
    C6_value_creation_queue_fifo.2.1 _ rfl,
    C6_value_creation_queue_fifo.2.2.1 _ "b" (by decide),
    C6_value_creation_queue_fifo.2.2.2.1 _ "a" rfl,
    C6_value_creation_queue_fifo.2.2.2.2 ["a", "b"]⟩

/-! ## C8: merge_metadata idempotence and order preservation -/

/-- C8: `merge_metadata` appends the channel to `wanted_by` only when absent
(keeping insertion order), leaves `processing` alone, unions the
dependencies into `depends_on`, and replaying the identical call is a
no-op. -/
theorem C8_merge_metadata_idempotent :
    ∀ (n : NodeMetadata) (ch : String) (deps : List Id),
      ((n.merge_metadata ch deps).merge_metadata ch deps =
        n.merge_metadata ch deps) ∧
      ch ∈ (n.merge_metadata ch deps).wanted_by_reply_channels ∧
      (ch ∈ n.wanted_by_reply_channels →
        (n.merge_metadata ch deps).wanted_by_reply_channels =
          n.wanted_by_reply_channels) ∧
      (ch ∉ n.wanted_by_reply_channels →
        (n.merge_metadata ch deps).wanted_by_reply_channels =
          n.wanted_by_reply_channels ++ [ch]) ∧
      ((n.merge_metadata ch deps).processing_reply_channel =
        n.processing_reply_channel) ∧
      (∀ x, x ∈ (n.merge_metadata ch deps).depends_on_node_ids ↔
        x ∈ n.depends_on_node_ids ∨ x ∈ deps) := by
  intro n ch deps
  have hw : ch ∈ (n.merge_metadata ch deps).wanted_by_reply_channels := by
    by_cases h : ch ∈ n.wanted_by_reply_channels <;>
      simp [NodeMetadata.merge_metadata, h]
  refine ⟨?_, hw, ?_, ?_, rfl, fun x => mem_hsExtend⟩
  · have hd : hsExtend (hsExtend n.depends_on_node_ids deps) deps =
        hsExtend n.depends_on_node_ids deps :=
      hsExtend_eq_of_subset (fun x hx => mem_hsExtend.mpr (Or.inr hx))
    have hw2 := hw
    simp only [NodeMetadata.merge_metadata] at hw2
    simp [NodeMetadata.merge_metadata, hw2, hd]
  · intro h
    simp [NodeMetadata.merge_metadata, h]
  · intro h
    simp [NodeMetadata.merge_metadata, h]

/-- Concrete instantiation of `C8_merge_metadata_idempotent`. -/
theorem C8_merge_metadata_idempotent_witness :
    (((⟨["a"], none, [5]⟩ : NodeMetadata).merge_metadata "b" [5, 7]).merge_metadata
        "b" [5, 7] =
      (⟨["a"], none, [5]⟩ : NodeMetadata).merge_metadata "b" [5, 7]) ∧
    ("b" ∉ (["a"] : List String) →
      ((⟨["a"], none, [5]⟩ : NodeMetadata).merge_metadata "b" [5, 7]).wanted_by_reply_channels =
        ["a"] ++ ["b"]) ∧
    (7 ∈ ((⟨["a"], none, [5]⟩ : NodeMetadata).merge_metadata "b" [5, 7]).depends_on_node_ids ↔
      7 ∈ ([5] : List Id) ∨ 7 ∈ ([5, 7] : List Id)) := by
  exact ⟨(C8_merge_metadata_idempotent ⟨["a"], none, [5]⟩ "b" [5, 7]).1,
    fun h => (C8_merge_metadata_idempotent ⟨["a"], none, [5]⟩ "b" [5, 7]).2.2.2.1 h,
    (C8_merge_metadata_idempotent ⟨["a"], none, [5]⟩ "b" [5, 7]).2.2.2.2.2 7⟩

/-! ## Association-list lemmas -/

theorem alGet_mem {α : Type} {k : Id} {v : α} {m : List (Id × α)}
    (h : alGet k m = some v) : (k, v) ∈ m := by
  induction m with
  | nil => simp [alGet] at h
  | cons e rest ih =>
    obtain ⟨k', v'⟩ := e
    by_cases hk : k' = k
    · subst hk
      simp [alGet] at h
      simp [h]
    · simp only [alGet, if_neg hk] at h
      exact List.mem_cons_of_mem _ (ih h)

theorem alGet_alModify_self {α : Type} (k : Id) (f : α → α)
    (m : List (Id × α)) :
    alGet k (alModify k f m) = (alGet k m).map f := by
  induction m with
  | nil => rfl
  | cons e rest ih =>
    obtain ⟨k', v⟩ := e
    by_cases hk : k' = k
    · subst hk; simp [alModify, alGet]
    · simp [alModify, alGet, hk, ih]

theorem alGet_alModify_ne {α : Type} {k k2 : Id} (h : k2 ≠ k) (f : α → α)
    (m : List (Id × α)) :
    alGet k2 (alModify k f m) = alGet k2 m := by
  induction m with
  | nil => rfl
  | cons e rest ih =>
    obtain ⟨k', v⟩ := e
    by_cases hk : k' = k
    · have h2 : ¬ k = k2 := fun hh => h hh.symm
      simp [alModify, alGet, hk, h2]
    · by_cases h3 : k' = k2 <;> simp [alModify, alGet, hk, h3, h, ih]

theorem alGet_alRemove_self {α : Type} (k : Id) (m : List (Id × α)) :
    alGet k (alRemove k m) = none := by
  induction m with
  | nil => rfl
  | cons e rest ih =>
    by_cases hk : e.1 = k
    · simpa [alRemove, List.filter_cons, hk] using ih
    · simpa [alRemove, List.filter_cons, alGet, hk] using ih

theorem alGet_alRemove_ne {α : Type} {k k2 : Id} (h : k2 ≠ k)
    (m : List (Id × α)) :
    alGet k2 (alRemove k m) = alGet k2 m := by
  induction m with
  | nil => rfl
  | cons e rest ih =>
    by_cases hk : e.1 = k
    · have h2 : ¬ k = k2 := fun hh => h hh.symm
      simpa [alRemove, List.filter_cons, alGet, hk, h2] using ih
    · by_cases h3 : e.1 = k2
      · simp [alRemove, List.filter_cons, alGet, hk, h3, h]
      · simpa [alRemove, List.filter_cons, alGet, hk, h3] using ih

theorem alGet_map {α β : Type} (f : α → β) (k : Id) (m : List (Id × α)) :
    alGet k (m.map (fun e => (e.1, f e.2))) = (alGet k m).map f := by
  induction m with
  | nil => rfl
  | cons e rest ih =>
    by_cases hk : e.1 = k <;> simp [alGet, hk, ih]

theorem alGet_map_remove_dependency (nid k : Id) (m : NodeMap) :
    alGet k (m.map (fun e => (e.1, e.2.remove_dependency nid))) =
      (alGet k m).map (fun v => v.remove_dependency nid) := by
  induction m with
  | nil => rfl
  | cons e rest ih =>
    by_cases hk : e.1 = k <;> simp [alGet, hk, ih]

theorem alGet_map_remove_channel (ch : String) (k : Id) (m : NodeMap) :
    alGet k (m.map (fun e => (e.1, e.2.remove_channel ch))) =
      (alGet k m).map (fun v => v.remove_channel ch) := by
  induction m with
  | nil => rfl
  | cons e rest ih =>
    by_cases hk : e.1 = k <;> simp [alGet, hk, ih]

theorem alGet_alEntry_self {α : Type} (k : Id) (f : α → α) (d : α)
    (m : List (Id × α)) :
    alGet k (alEntry k f d m) =
      some (match alGet k m with | some v => f v | none => d) := by
  induction m with
  | nil => simp [alEntry, alGet]
  | cons e rest ih =>
    obtain ⟨k', v⟩ := e
    by_cases hk : k' = k
    · subst hk; simp [alEntry, alGet]
    · simp [alEntry, alGet, hk, ih]

theorem alGet_alEntry_ne {α : Type} {k k2 : Id} (h : k2 ≠ k) (f : α → α)
    (d : α) (m : List (Id × α)) :
    alGet k2 (alEntry k f d m) = alGet k2 m := by
  induction m with
  | nil =>
    have h2 : ¬ k = k2 := fun hh => h hh.symm
    simp [alEntry, alGet, h2]
  | cons e rest ih =>
    obtain ⟨k', v⟩ := e
    by_cases hk : k' = k
    · have h2 : ¬ k = k2 := fun hh => h hh.symm
      simp [alEntry, alGet, hk, h2]
    · by_cases h3 : k' = k2 <;> simp [alEntry, alGet, hk, h3, h, ih]

/-! ## C2: totality of mark_node_as_processed -/

/-- C2 counterexample: with the change-set id absent from the graph,
`mark_node_as_processed` hits the `.unwrap()` panic (modelled as `none`)
instead of returning `UnknownNodeId`. -/
theorem C2_absent_change_set_panics :
    (⟨[]⟩ : ChangeSetGraph).mark_node_as_processed "a" 0 0 = none ∧
    (⟨[]⟩ : ChangeSetGraph).mark_node_as_processed "a" 0 0 ≠
      some (Except.error Error.UnknownNodeId, (⟨[]⟩ : ChangeSetGraph)) :=
  ⟨rfl, by simp [ChangeSetGraph.mark_node_as_processed, alGet]⟩

/-- C2 (amended): when the change set is present in the graph,
`mark_node_as_processed` is total — it returns a value or a protocol error
— and it returns `UnknownNodeId` (leaving the graph unchanged) when the
named node is absent from that change set.  (With an absent change-set id
the code panics on `unwrap`, see the counterexample.) -/
theorem C2_total_when_change_set_present :
    ∀ (g : ChangeSetGraph) (ch : String) (cs nid : Id) (csd : NodeMap),
      alGet cs g.dependency_data = some csd →
      (g.mark_node_as_processed ch cs nid).isSome = true ∧
      (alGet nid csd = none →
        g.mark_node_as_processed ch cs nid =
          some (.error .UnknownNodeId, g)) := by
  intro g ch cs nid csd h
  refine ⟨?_, ?_⟩
  · simp only [ChangeSetGraph.mark_node_as_processed, h]
    cases h2 : alGet nid csd with
    | none => simp
    | some nm =>
      dsimp only
      split
      · simp
      · split <;> simp
  · intro h2
    simp only [ChangeSetGraph.mark_node_as_processed, h, h2]

/-- Concrete instantiation of `C2_total_when_change_set_present`. -/
theorem C2_total_when_change_set_present_witness :
    ((⟨[(0, [(1, ⟨["a"], some "a", []⟩)])]⟩ :
        ChangeSetGraph).mark_node_as_processed "a" 0 2).isSome = true ∧
    (⟨[(0, [(1, ⟨["a"], some "a", []⟩)])]⟩ :
        ChangeSetGraph).mark_node_as_processed "a" 0 2 =
      some (.error .UnknownNodeId,
        ⟨[(0, [(1, ⟨["a"], some "a", []⟩)])]⟩) := by
  have h := C2_total_when_change_set_present
    ⟨[(0, [(1, ⟨["a"], some "a", []⟩)])]⟩ "a" 0 2
    [(1, ⟨["a"], some "a", []⟩)] rfl
  exact ⟨h.1, h.2 rfl⟩

/-! ## C5: error atomicity of mark_node_as_processed -/

/-- C5: for a change set present in the graph, an absent node yields
`UnknownNodeId` and a processing-channel mismatch yields
`ShouldNotBeProcessingByJob`; in both error cases the returned graph is the
input graph, unchanged. -/
theorem C5_mark_error_atomicity :
    ∀ (g : ChangeSetGraph) (ch : String) (cs nid : Id) (csd : NodeMap),
      alGet cs g.dependency_data = some csd →
      (alGet nid csd = none →
        g.mark_node_as_processed ch cs nid =
          some (.error .UnknownNodeId, g)) ∧
      (∀ nm : NodeMetadata, alGet nid csd = some nm →
        nm.processing_reply_channel ≠ some ch →
        g.mark_node_as_processed ch cs nid =
          some (.error .ShouldNotBeProcessingByJob, g)) := by
  intro g ch cs nid csd h
  constructor
  · intro h2
    simp only [ChangeSetGraph.mark_node_as_processed, h, h2]
  · intro nm h2 h3
    simp only [ChangeSetGraph.mark_node_as_processed, h, h2]
    simp [h3]

/-- Concrete instantiation of `C5_mark_error_atomicity`. -/
theorem C5_mark_error_atomicity_witness :
    (⟨[(0, [(1, ⟨["a"], some "a", []⟩)])]⟩ :
        ChangeSetGraph).mark_node_as_processed "a" 0 2 =
      some (.error .UnknownNodeId,
        ⟨[(0, [(1, ⟨["a"], some "a", []⟩)])]⟩) ∧
    (⟨[(0, [(1, ⟨["a"], some "a", []⟩)])]⟩ :
        ChangeSetGraph).mark_node_as_processed "b" 0 1 =
      some (.error .ShouldNotBeProcessingByJob,
        ⟨[(0, [(1, ⟨["a"], some "a", []⟩)])]⟩) := by
  have h := C5_mark_error_atomicity
    ⟨[(0, [(1, ⟨["a"], some "a", []⟩)])]⟩ "a" 0 2
    [(1, ⟨["a"], some "a", []⟩)] rfl
  have h2 := C5_mark_error_atomicity
    ⟨[(0, [(1, ⟨["a"], some "a", []⟩)])]⟩ "b" 0 1
    [(1, ⟨["a"], some "a", []⟩)] rfl
  exact ⟨h.1 rfl, h2.2 ⟨["a"], some "a", []⟩ rfl (by simp)⟩

/-! ## C4: completion effects of mark_node_as_processed -/

/-- C4: when the node exists, its `processing` equals `reply_channel`, and
its `depends_on` is empty, `mark_node_as_processed` removes the channel
from the node's `wanted_by` and returns the remainder, removes the node
from the change set, erases the node id from every other node's
`depends_on` in that change set, removes the change-set entry exactly when
its node map became empty, and leaves every other change set unchanged. -/
theorem C4_mark_completion_effects :
    ∀ (g : ChangeSetGraph) (ch : String) (cs nid : Id) (csd : NodeMap)
      (nm : NodeMetadata),
      alGet cs g.dependency_data = some csd →
      alGet nid csd = some nm →
      nm.processing_reply_channel = some ch →
      nm.depends_on_node_ids.isEmpty = true →
      ∃ g' : ChangeSetGraph,
        g.mark_node_as_processed ch cs nid =
          some (.ok (nm.wanted_by_reply_channels.filter (· ≠ ch)), g') ∧
        (let csd' := (alRemove nid csd).map
            (fun e => (e.1, e.2.remove_dependency nid))
         alGet cs g'.dependency_data =
           (if csd'.isEmpty then none else some csd') ∧
         alGet nid csd' = none ∧
         (∀ (nid2 : Id) (md2 : NodeMetadata), nid2 ≠ nid →
           alGet nid2 csd = some md2 →
           alGet nid2 csd' = some (md2.remove_dependency nid)) ∧
         (∀ cs2 : Id, cs2 ≠ cs →
           alGet cs2 g'.dependency_data = alGet cs2 g.dependency_data)) := by
  intro g ch cs nid csd nm h1 h2 h3 h4
  have hproc : ¬ nm.processing_reply_channel ≠ some ch := by simp [h3]
  set nm' : NodeMetadata :=
    { nm with
      processing_reply_channel := none,
      wanted_by_reply_channels :=
        nm.wanted_by_reply_channels.filter (· ≠ ch) } with hnm'
  have hdeps : nm'.depends_on_node_ids.isEmpty = true := h4
  set csd' : NodeMap :=
    (alRemove nid csd).map (fun e => (e.1, e.2.remove_dependency nid))
    with hcsd'
  set dd' : List (Id × NodeMap) :=
    if csd'.isEmpty then alRemove cs g.dependency_data
    else alModify cs (fun _ => csd') g.dependency_data with hdd'
  refine ⟨⟨dd'⟩, ?_, ?_, ?_, ?_, ?_⟩
  · simp only [ChangeSetGraph.mark_node_as_processed, h1, h2, hproc,
      if_false, hdeps, if_true, ite_not]
  · show alGet cs dd' = if csd'.isEmpty then none else some csd'
    by_cases he : csd'.isEmpty
    · rw [if_pos he, hdd', if_pos he]
      exact alGet_alRemove_self cs g.dependency_data
    · rw [if_neg he, hdd', if_neg he, alGet_alModify_self, h1]
      rfl
  · show alGet nid csd' = none
    rw [hcsd', alGet_map_remove_dependency, alGet_alRemove_self]
    rfl
  · intro nid2 md2 hne hget
    show alGet nid2 csd' = some (md2.remove_dependency nid)
    rw [hcsd', alGet_map_remove_dependency, alGet_alRemove_ne hne, hget]
    rfl
  · intro cs2 hne
    show alGet cs2 dd' = alGet cs2 g.dependency_data
    by_cases he : csd'.isEmpty
    · rw [hdd', if_pos he]
      exact alGet_alRemove_ne hne g.dependency_data
    · rw [hdd', if_neg he]
      exact alGet_alModify_ne hne _ g.dependency_data

/-- Concrete instantiation of `C4_mark_completion_effects`: channel "a"
completes node 1 of change set 0; node 2 loses the dependency on 1, the
change set survives, and the secondary subscriber list `["b"]` is
returned. -/
theorem C4_mark_completion_effects_witness :
    ∃ g' : ChangeSetGraph,
      (⟨[(0, [(1, ⟨["a", "b"], some "a", []⟩),
              (2, ⟨["b"], none, [1]⟩)])]⟩ :
          ChangeSetGraph).mark_node_as_processed "a" 0 1 =
        some (.ok ((["a", "b"] : List String).filter (· ≠ "a")), g') := by
  obtain ⟨g', hg', -⟩ := C4_mark_completion_effects
    ⟨[(0, [(1, ⟨["a", "b"], some "a", []⟩), (2, ⟨["b"], none, [1]⟩)])]⟩
    "a" 0 1
    [(1, ⟨["a", "b"], some "a", []⟩), (2, ⟨["b"], none, [1]⟩)]
    ⟨["a", "b"], some "a", []⟩ rfl rfl rfl rfl
  exact ⟨g', hg'⟩

/-! ## C7 and C10: remove_channel -/

theorem alGet_filter_none {α : Type} {k : Id} {p : Id × α → Bool}
    {m : List (Id × α)} (h : ∀ e ∈ m, e.1 = k → p e = false) :
    alGet k (m.filter p) = none := by
  induction m with
  | nil => rfl
  | cons e rest ih =>
    have hrest := ih (fun e' he' => h e' (List.mem_cons_of_mem _ he'))
    rw [List.filter_cons]
    by_cases hk : e.1 = k
    · simpa [h e (List.mem_cons_self e rest) hk] using hrest
    · by_cases hp : p e = true
      · simpa [hp, alGet, hk] using hrest
      · simpa [hp] using hrest

theorem key_unique {α : Type} {m : List (Id × α)}
    (hnd : (m.map Prod.fst).Nodup) {e e' : Id × α}
    (he : e ∈ m) (he' : e' ∈ m) (hk : e.1 = e'.1) : e = e' := by
  induction m with
  | nil => cases he
  | cons a rest ih =>
    rw [List.map_cons, List.nodup_cons] at hnd
    rcases List.mem_cons.mp he with rfl | he2
    · rcases List.mem_cons.mp he' with rfl | he2'
      · rfl
      · have : e'.1 ∈ rest.map Prod.fst := List.mem_map_of_mem Prod.fst he2'
        rw [← hk] at this
        exact absurd this hnd.1
    · rcases List.mem_cons.mp he' with rfl | he2'
      · have : e.1 ∈ rest.map Prod.fst := List.mem_map_of_mem Prod.fst he2
        rw [hk] at this
        exact absurd this hnd.1
      · exact ih hnd.2 he2 he2'

theorem removeChannelMap_eq_filter {m : NodeMap} {ch : String}
    (hnd : (m.map Prod.fst).Nodup) :
    removeChannelMap m ch =
      (m.map (fun e => (e.1, e.2.remove_channel ch))).filter
        (fun e => !(e.2.is_empty)) := by
  unfold removeChannelMap
  have hnd' : ((m.map (fun e => (e.1, e.2.remove_channel ch))).map
      Prod.fst).Nodup := by
    rw [List.map_map]
    exact hnd
  apply List.filter_congr
  intro e he
  by_cases hemp : e.2.is_empty = true
  · have hmem : e.1 ∈ ((m.map (fun e => (e.1, e.2.remove_channel ch))).filter
        (fun e => e.2.is_empty)).map (·.1) :=
      List.mem_map_of_mem _ (List.mem_filter.mpr ⟨he, hemp⟩)
    simp [hmem, hemp]
  · have hmem : e.1 ∉ ((m.map (fun e => (e.1, e.2.remove_channel ch))).filter
        (fun e => e.2.is_empty)).map (·.1) := by
      intro hcon
      obtain ⟨e', he', hke⟩ := List.mem_map.mp hcon
      have he'2 := List.mem_filter.mp he'
      have : e' = e := key_unique hnd' he'2.1 he hke
      rw [this] at he'2
      exact absurd he'2.2 hemp
    simp [hmem, hemp]

/-- C7 counterexample: in change set 0, node 1 depends on node 2, node 2's
only subscriber is `"c1"`, and nobody is processing.  `remove_channel 0
"c1"` deletes node 2 — whose `wanted_by` became empty — even though node 1
still lists 2 in its `depends_on`, contradicting the claim that such a
node survives the cancellation. -/
theorem C7_deleted_despite_incoming_reference :
    (ChangeSetGraph.remove_channel
        ⟨[(0, [(1, ⟨["c2"], none, [2]⟩), (2, ⟨["c1"], none, []⟩)])]⟩
        0 "c1").dependency_data =
      [(0, [(1, ⟨["c2"], none, [2]⟩)])] := by decide

/-- C7 (amended): after `remove_channel` on a change set, a node whose
`wanted_by` became empty with `processing` unset is deleted
unconditionally, whether or not other nodes of the change set still list
it in their `depends_on`. -/
theorem C7_cancellation_deletes_empty_nodes :
    ∀ (g : ChangeSetGraph) (cs : Id) (ch : String) (csd : NodeMap)
      (nid : Id) (md : NodeMetadata),
      alGet cs g.dependency_data = some csd →
      (nid, md) ∈ csd →
      (md.remove_channel ch).is_empty = true →
      alGet cs (g.remove_channel cs ch).dependency_data =
        some (removeChannelMap csd ch) ∧
      alGet nid (removeChannelMap csd ch) = none := by
  intro g cs ch csd nid md h1 h2 h3
  constructor
  · simp only [ChangeSetGraph.remove_channel, h1]
    rw [alGet_alModify_self, h1]
    rfl
  · unfold removeChannelMap
    apply alGet_filter_none
    intro e he hke
    have hmm : (nid, md.remove_channel ch) ∈
        csd.map (fun e => (e.1, e.2.remove_channel ch)) :=
      List.mem_map_of_mem _ h2
    have hmf : (nid, md.remove_channel ch) ∈
        (csd.map (fun e => (e.1, e.2.remove_channel ch))).filter
          (fun e => e.2.is_empty) :=
      List.mem_filter.mpr ⟨hmm, h3⟩
    have hmem : (nid : Id) ∈ ((csd.map
        (fun e => (e.1, e.2.remove_channel ch))).filter
          (fun e => e.2.is_empty)).map (·.1) :=
      List.mem_map_of_mem (·.1) hmf
    rw [hke]
    simp [hmem]

/-- Concrete instantiation of `C7_cancellation_deletes_empty_nodes` on the
counterexample state. -/
theorem C7_cancellation_deletes_empty_nodes_witness :
    alGet 0 (ChangeSetGraph.remove_channel
        ⟨[(0, [(1, ⟨["c2"], none, [2]⟩), (2, ⟨["c1"], none, []⟩)])]⟩
        0 "c1").dependency_data =
      some (removeChannelMap
        [(1, ⟨["c2"], none, [2]⟩), (2, ⟨["c1"], none, []⟩)] "c1") ∧
    alGet 2 (removeChannelMap
      [(1, ⟨["c2"], none, [2]⟩), (2, ⟨["c1"], none, []⟩)] "c1") = none :=
  C7_cancellation_deletes_empty_nodes
    ⟨[(0, [(1, ⟨["c2"], none, [2]⟩), (2, ⟨["c1"], none, []⟩)])]⟩
    0 "c1" [(1, ⟨["c2"], none, [2]⟩), (2, ⟨["c1"], none, []⟩)]
    2 ⟨["c1"], none, []⟩ rfl (by simp) (by decide)

/-- C10: `remove_channel` rewrites the named change set by erasing the
channel from every node's `wanted_by` and `processing` while leaving every
`depends_on` unchanged, deletes exactly the nodes that thereby became
empty (`wanted_by` empty and `processing` unset), keeps the change-set
entry itself (as `some`, possibly of an empty map), and leaves every other
change set unchanged. -/
theorem C10_remove_channel_frame :
    ∀ (g : ChangeSetGraph) (cs : Id) (ch : String) (csd : NodeMap),
      alGet cs g.dependency_data = some csd →
      (csd.map Prod.fst).Nodup →
      alGet cs (g.remove_channel cs ch).dependency_data =
        some ((csd.map (fun e => (e.1, e.2.remove_channel ch))).filter
          (fun e => !(e.2.is_empty))) ∧
      (∀ cs2 : Id, cs2 ≠ cs →
        alGet cs2 (g.remove_channel cs ch).dependency_data =
          alGet cs2 g.dependency_data) := by
  intro g cs ch csd h1 hnd
  constructor
  · simp only [ChangeSetGraph.remove_channel, h1]
    rw [alGet_alModify_self, h1, Option.map_some', removeChannelMap_eq_filter hnd]
  · intro cs2 hne
    simp only [ChangeSetGraph.remove_channel, h1]
    exact alGet_alModify_ne hne _ g.dependency_data

/-- Concrete instantiation of `C10_remove_channel_frame`. -/
theorem C10_remove_channel_frame_witness :
    alGet 0 (ChangeSetGraph.remove_channel
        ⟨[(0, [(1, ⟨["c2"], none, [2]⟩), (2, ⟨["c1"], none, []⟩)])]⟩
        0 "c1").dependency_data =
      some (([(1, (⟨["c2"], none, [2]⟩ : NodeMetadata)),
              (2, ⟨["c1"], none, []⟩)].map
          (fun e => (e.1, e.2.remove_channel "c1"))).filter
        (fun e => !(e.2.is_empty))) ∧
    (1 : Id) ≠ 0 := by
  refine ⟨?_, by decide⟩
  exact (C10_remove_channel_frame
    ⟨[(0, [(1, ⟨["c2"], none, [2]⟩), (2, ⟨["c1"], none, []⟩)])]⟩
    0 "c1" [(1, ⟨["c2"], none, [2]⟩), (2, ⟨["c1"], none, []⟩)]
    rfl (by decide)).1

/-! ## C1: the no-premature-claim invariant -/

theorem inv_no_premature_iff {g : ChangeSetGraph} :
    g.inv_no_premature = true ↔
      ∀ cse ∈ g.dependency_data, ∀ e ∈ (cse : Id × NodeMap).2,
        (e : Id × NodeMetadata).2.no_premature_claim = true := by
  simp [ChangeSetGraph.inv_no_premature, List.all_eq_true]

theorem no_premature_next_to_process (n : NodeMetadata)
    (h : n.no_premature_claim = true) :
    (n.next_to_process).2.no_premature_claim = true := by
  unfold NodeMetadata.next_to_process
  split
  · rename_i hc
    rw [Bool.and_eq_true] at hc
    simp [NodeMetadata.no_premature_claim, hc.1]
  · exact h

theorem no_premature_remove_dependency (n : NodeMetadata) (nid : Id)
    (h : n.no_premature_claim = true) :
    (n.remove_dependency nid).no_premature_claim = true := by
  simp only [NodeMetadata.no_premature_claim, NodeMetadata.remove_dependency,
    Bool.or_eq_true] at h ⊢
  rcases h with h | h
  · exact Or.inl h
  · right
    rw [List.isEmpty_iff] at h
    simp [h]

theorem no_premature_remove_channel (n : NodeMetadata) (ch : String)
    (h : n.no_premature_claim = true) :
    (n.remove_channel ch).no_premature_claim = true := by
  simp only [NodeMetadata.no_premature_claim, NodeMetadata.remove_channel,
    Bool.or_eq_true] at h ⊢
  rcases h with h | h
  · left
    rw [Option.isNone_iff_eq_none] at h
    simp [h]
  · exact Or.inr h

theorem mem_alModify {α : Type} {k : Id} {f : α → α} {m : List (Id × α)}
    {e : Id × α} (he : e ∈ alModify k f m) :
    e ∈ m ∨ ∃ e' ∈ m, e = (e'.1, f e'.2) := by
  induction m with
  | nil => simp [alModify] at he
  | cons a rest ih =>
    obtain ⟨k', v⟩ := a
    by_cases hk : k' = k
    · simp only [alModify, if_pos hk] at he
      rcases List.mem_cons.mp he with rfl | hrest
      · exact Or.inr ⟨(k', v), List.mem_cons_self _ _, rfl⟩
      · exact Or.inl (List.mem_cons_of_mem _ hrest)
    · simp only [alModify, if_neg hk] at he
      rcases List.mem_cons.mp he with rfl | hrest
      · exact Or.inl (List.mem_cons_self _ _)
      · rcases ih hrest with h | ⟨e', he', rfl⟩
        · exact Or.inl (List.mem_cons_of_mem _ h)
        · exact Or.inr ⟨e', List.mem_cons_of_mem _ he', rfl⟩

theorem fetchNodes_all_no_premature {m : NodeMap}
    (h : ∀ e ∈ m, (e : Id × NodeMetadata).2.no_premature_claim = true) :
    ∀ e ∈ (fetchNodes m).2,
      (e : Id × NodeMetadata).2.no_premature_claim = true := by
  induction m with
  | nil => intro e he; cases he
  | cons a rest ih =>
    obtain ⟨id, md⟩ := a
    intro e he
    rcases List.mem_cons.mp he with rfl | h2
    · exact no_premature_next_to_process md (h _ (List.mem_cons_self _ _))
    · exact ih (fun e' he' => h e' (List.mem_cons_of_mem _ he')) e h2

theorem fetchGraphs_all_no_premature {l : List (Id × NodeMap)}
    (h : ∀ cse ∈ l, ∀ e ∈ (cse : Id × NodeMap).2,
      (e : Id × NodeMetadata).2.no_premature_claim = true) :
    ∀ cse ∈ (fetchGraphs l).2, ∀ e ∈ (cse : Id × NodeMap).2,
      (e : Id × NodeMetadata).2.no_premature_claim = true := by
  induction l with
  | nil => intro cse hcse; cases hcse
  | cons a rest ih =>
    obtain ⟨cs, m⟩ := a
    intro cse hcse
    rcases List.mem_cons.mp hcse with rfl | h2
    · exact fetchNodes_all_no_premature (h _ (List.mem_cons_self _ _))
    · exact ih (fun c hc => h c (List.mem_cons_of_mem _ hc)) cse h2

theorem mark_preserves_no_premature {g : ChangeSetGraph}
    (hinv : g.inv_no_premature = true) (ch : String) (cs nid : Id)
    (r : Except Error (List String)) (g' : ChangeSetGraph)
    (hmark : g.mark_node_as_processed ch cs nid = some (r, g')) :
    g'.inv_no_premature = true := by
  rw [inv_no_premature_iff] at hinv ⊢
  simp only [ChangeSetGraph.mark_node_as_processed] at hmark
  cases h1 : alGet cs g.dependency_data with
  | none => rw [h1] at hmark; cases hmark
  | some csd =>
    rw [h1] at hmark
    dsimp only at hmark
    have hcsd : ∀ e ∈ csd, (e : Id × NodeMetadata).2.no_premature_claim = true :=
      hinv (cs, csd) (alGet_mem h1)
    cases h2 : alGet nid csd with
    | none =>
      rw [h2] at hmark
      simp only [Option.some.injEq, Prod.mk.injEq] at hmark
      obtain ⟨-, rfl⟩ := hmark
      exact hinv
    | some nm =>
      rw [h2] at hmark
      dsimp only at hmark
      by_cases h3 : nm.processing_reply_channel ≠ some ch
      · rw [if_pos h3] at hmark
        simp only [Option.some.injEq, Prod.mk.injEq] at hmark
        obtain ⟨-, rfl⟩ := hmark
        exact hinv
      · rw [if_neg h3] at hmark
        by_cases h4 : nm.depends_on_node_ids.isEmpty = true
        · rw [if_pos h4] at hmark
          simp only [Option.some.injEq, Prod.mk.injEq] at hmark
          obtain ⟨-, rfl⟩ := hmark
          intro cse hcse e he
          have hcsd' : ∀ e ∈ (alRemove nid csd).map
              (fun e => (e.1, e.2.remove_dependency nid)),
              (e : Id × NodeMetadata).2.no_premature_claim = true := by
            intro e2 he2
            obtain ⟨e0, he0, rfl⟩ := List.mem_map.mp he2
            exact no_premature_remove_dependency _ _
              (hcsd e0 (List.mem_filter.mp he0).1)
          by_cases h5 : List.isEmpty ((alRemove nid csd).map
              (fun e => (e.1, e.2.remove_dependency nid))) = true
          · rw [if_pos h5] at hcse
            exact hinv cse (List.mem_filter.mp hcse).1 e he
          · rw [if_neg h5] at hcse
            rcases mem_alModify hcse with hmem | ⟨e', he', heq⟩
            · exact hinv cse hmem e he
            · rw [heq] at he
              exact hcsd' e he
        · rw [if_neg h4] at hmark
          simp only [Option.some.injEq, Prod.mk.injEq] at hmark
          obtain ⟨-, rfl⟩ := hmark
          intro cse hcse e he
          rcases mem_alModify hcse with hmem | ⟨e', he', heq⟩
          · exact hinv cse hmem e he
          · rw [heq] at he
            rcases mem_alModify he with hmem2 | ⟨e2, he2, heq2⟩
            · exact hinv e' he' e hmem2
            · rw [heq2]
              simp [NodeMetadata.no_premature_claim]

theorem remove_channel_preserves_no_premature {g : ChangeSetGraph}
    (hinv : g.inv_no_premature = true) (cs : Id) (ch : String) :
    (g.remove_channel cs ch).inv_no_premature = true := by
  rw [inv_no_premature_iff] at hinv ⊢
  unfold ChangeSetGraph.remove_channel
  cases h1 : alGet cs g.dependency_data with
  | none => exact hinv
  | some csd =>
    intro cse hcse e he
    rcases mem_alModify hcse with hmem | ⟨e', he', heq⟩
    · exact hinv cse hmem e he
    · rw [heq] at he
      dsimp only at he
      unfold removeChannelMap at he
      obtain ⟨he2, -⟩ := List.mem_filter.mp he
      obtain ⟨e0, he0, rfl⟩ := List.mem_map.mp he2
      exact no_premature_remove_channel _ _ (hinv e' he' e0 he0)

/-- C1 counterexample: a graph with a single claimed node (channel "a" is
processing node 1, which has no dependencies) satisfies the invariant;
merging a submission from channel "b" that declares node 1 to depend on
node 2 leaves node 1 claimed with a non-empty `depends_on` — the invariant
is violated, exactly in the "survives a merge that adds new dependencies
to an already-claimed node" case the claim asserts. -/
theorem C1_merge_breaks_no_premature :
    (⟨[(0, [(1, ⟨[], some "a", []⟩)])]⟩ :
      ChangeSetGraph).inv_no_premature = true ∧
    (ChangeSetGraph.merge_dependency_graph
        ⟨[(0, [(1, ⟨[], some "a", []⟩)])]⟩ "b" [(1, [2])] 0).toOption.map
      ChangeSetGraph.inv_no_premature = some false := by decide

/-- C1 (amended): the no-premature-claim invariant (`processing` set ⇒
`depends_on` empty, at every node of every change set) is preserved by
`fetch_all_available`, by `mark_node_as_processed` on every non-panicking
outcome, and by `remove_channel`; `merge_dependency_graph` does not
preserve it when the submission adds dependencies to an already-claimed
node (see the counterexample). -/
theorem C1_no_premature_invariant_preserved :
    ∀ g : ChangeSetGraph, g.inv_no_premature = true →
      ((g.fetch_all_available).2.inv_no_premature = true) ∧
      (∀ (ch : String) (cs nid : Id) (r : Except Error (List String))
         (g' : ChangeSetGraph),
        g.mark_node_as_processed ch cs nid = some (r, g') →
        g'.inv_no_premature = true) ∧
      (∀ (cs : Id) (ch : String),
        (g.remove_channel cs ch).inv_no_premature = true) := by
  intro g hinv
  refine ⟨?_, ?_, ?_⟩
  · rw [inv_no_premature_iff] at hinv ⊢
    exact fetchGraphs_all_no_premature hinv
  · exact fun ch cs nid r g' h =>
      mark_preserves_no_premature hinv ch cs nid r g' h
  · exact fun cs ch => remove_channel_preserves_no_premature hinv cs ch

/-- Concrete instantiation of `C1_no_premature_invariant_preserved`. -/
theorem C1_no_premature_invariant_preserved_witness :
    ((⟨[(0, [(1, ⟨["a"], none, []⟩)])]⟩ :
      ChangeSetGraph).fetch_all_available).2.inv_no_premature = true ∧
    (ChangeSetGraph.remove_channel
      ⟨[(0, [(1, ⟨["a"], none, []⟩)])]⟩ 0 "a").inv_no_premature = true := by
  have h := C1_no_premature_invariant_preserved
    ⟨[(0, [(1, ⟨["a"], none, []⟩)])]⟩ (by decide)
  exact ⟨h.1, h.2.2 0 "a"⟩

/-! ## C9: merge_dependency_graph tracks dependencies -/

theorem alGet_mergeNode_self (m : NodeMap) (k : Id) (ch : String)
    (ds : List Id) :
    alGet k (mergeNode m k ch ds) =
      some (((alGet k m).getD NodeMetadata.empty).merge_metadata ch ds) := by
  unfold mergeNode
  rw [alGet_alEntry_self]
  cases h : alGet k m <;> rfl

theorem alGet_mergeNode_ne {k k2 : Id} (h : k2 ≠ k) (m : NodeMap)
    (ch : String) (ds : List Id) :
    alGet k2 (mergeNode m k ch ds) = alGet k2 m :=
  alGet_alEntry_ne h _ _ m

theorem wantedOf_mergeNode_self (m : NodeMap) (k : Id) (ch : String)
    (ds : List Id) :
    ch ∈ wantedOf k (mergeNode m k ch ds) := by
  rw [wantedOf, alGet_mergeNode_self]
  dsimp only
  by_cases h3 : ch ∈
      ((alGet k m).getD NodeMetadata.empty).wanted_by_reply_channels <;>
    simp [NodeMetadata.merge_metadata, h3]

theorem wantedOf_mergeNode_mono {k : Id} {m : NodeMap} {ch0 ch : String}
    {k2 : Id} {ds : List Id} (h : ch0 ∈ wantedOf k m) :
    ch0 ∈ wantedOf k (mergeNode m k2 ch ds) := by
  by_cases hk : k2 = k
  · rw [hk, wantedOf, alGet_mergeNode_self]
    rw [wantedOf] at h
    cases h2 : alGet k m with
    | none => rw [h2] at h; cases h
    | some nm =>
      rw [h2] at h
      dsimp only
      by_cases h3 : ch ∈ nm.wanted_by_reply_channels <;>
        simp [NodeMetadata.merge_metadata, Option.getD, h3, h]
  · rw [wantedOf, alGet_mergeNode_ne (fun hh => hk hh.symm)]
    exact h

theorem depsOf_mergeNode_self (m : NodeMap) (k : Id) (ch : String)
    (ds : List Id) :
    ∀ d ∈ ds, d ∈ depsOf k (mergeNode m k ch ds) := by
  intro d hd
  rw [depsOf, alGet_mergeNode_self]
  exact mem_hsExtend.mpr (Or.inr hd)

theorem depsOf_mergeNode_mono {k : Id} {m : NodeMap} {d : Id} {k2 : Id}
    {ch : String} {ds : List Id} (h : d ∈ depsOf k m) :
    d ∈ depsOf k (mergeNode m k2 ch ds) := by
  by_cases hk : k2 = k
  · rw [hk, depsOf, alGet_mergeNode_self]
    rw [depsOf] at h
    cases h2 : alGet k m with
    | none => rw [h2] at h; cases h
    | some nm =>
      rw [h2] at h
      exact mem_hsExtend.mpr (Or.inl h)
  · rw [depsOf, alGet_mergeNode_ne (fun hh => hk hh.symm)]
    exact h

theorem depsOf_mergeNode_nil (m : NodeMap) (k k2 : Id) (ch : String) :
    depsOf k (mergeNode m k2 ch []) = depsOf k m := by
  by_cases hk : k2 = k
  · rw [hk, depsOf, depsOf, alGet_mergeNode_self]
    cases h2 : alGet k m <;> rfl
  · rw [depsOf, depsOf, alGet_mergeNode_ne (fun hh => hk hh.symm)]

theorem depsOf_mergeNode_ne {k k2 : Id} (h : k ≠ k2) (m : NodeMap)
    (ch : String) (ds : List Id) :
    depsOf k (mergeNode m k2 ch ds) = depsOf k m := by
  rw [depsOf, depsOf, alGet_mergeNode_ne h]

theorem wantedOf_depsFold_mono {k : Id} {ch0 ch : String} :
    ∀ (ds : List Id) (m : NodeMap), ch0 ∈ wantedOf k m →
      ch0 ∈ wantedOf k (ds.foldl (fun acc d => mergeNode acc d ch []) m) := by
  intro ds
  induction ds with
  | nil => exact fun m h => h
  | cons d rest ih => exact fun m h => ih _ (wantedOf_mergeNode_mono h)

theorem depsOf_depsFold (ds : List Id) (m : NodeMap) (k : Id) (ch : String) :
    depsOf k (ds.foldl (fun acc d => mergeNode acc d ch []) m) =
      depsOf k m := by
  induction ds generalizing m with
  | nil => rfl
  | cons d rest ih =>
    show depsOf k (rest.foldl _ (mergeNode m d ch [])) = _
    rw [ih, depsOf_mergeNode_nil]

theorem wantedOf_depsFold_self {k : Id} {ch : String} :
    ∀ (ds : List Id) (m : NodeMap), k ∈ ds →
      ch ∈ wantedOf k (ds.foldl (fun acc d => mergeNode acc d ch []) m) := by
  intro ds
  induction ds with
  | nil => intro m h; cases h
  | cons d rest ih =>
    intro m h
    rcases List.mem_cons.mp h with rfl | h2
    · exact wantedOf_depsFold_mono rest _ (wantedOf_mergeNode_self m k ch [])
    · exact ih _ h2

theorem wantedOf_mergeEntry_self (m : NodeMap) (ch : String) (nid : Id)
    (deps : List Id) :
    ch ∈ wantedOf nid (mergeEntry m ch nid deps) :=
  wantedOf_depsFold_mono deps _ (wantedOf_mergeNode_self m nid ch deps)

theorem depsOf_mergeEntry_self (m : NodeMap) (ch : String) (nid : Id)
    (deps : List Id) :
    ∀ d ∈ deps, d ∈ depsOf nid (mergeEntry m ch nid deps) := by
  intro d hd
  unfold mergeEntry
  rw [depsOf_depsFold]
  exact depsOf_mergeNode_self m nid ch deps d hd

theorem wantedOf_mergeEntry_dep (m : NodeMap) (ch : String) (nid : Id)
    {deps : List Id} {d : Id} (hd : d ∈ deps) :
    ch ∈ wantedOf d (mergeEntry m ch nid deps) :=
  wantedOf_depsFold_self deps _ hd

theorem wantedOf_mergeEntry_mono {k : Id} {m : NodeMap} {ch0 ch : String}
    {nid : Id} {deps : List Id} (h : ch0 ∈ wantedOf k m) :
    ch0 ∈ wantedOf k (mergeEntry m ch nid deps) :=
  wantedOf_depsFold_mono deps _ (wantedOf_mergeNode_mono h)

theorem depsOf_mergeEntry_mono {k : Id} {m : NodeMap} {d : Id}
    {ch : String} {nid : Id} {deps : List Id} (h : d ∈ depsOf k m) :
    d ∈ depsOf k (mergeEntry m ch nid deps) := by
  unfold mergeEntry
  rw [depsOf_depsFold]
  exact depsOf_mergeNode_mono h

theorem depsOf_mergeEntry_ne {k nid : Id} (hne : k ≠ nid) (m : NodeMap)
    (ch : String) (deps : List Id) :
    depsOf k (mergeEntry m ch nid deps) = depsOf k m := by
  unfold mergeEntry
  rw [depsOf_depsFold]
  exact depsOf_mergeNode_ne hne m ch deps

theorem wantedOf_mergeGraphData_mono {k : Id} {ch0 ch : String} :
    ∀ (ng : Graph) (m : NodeMap), ch0 ∈ wantedOf k m →
      ch0 ∈ wantedOf k (mergeGraphData m ch ng) := by
  intro ng
  induction ng with
  | nil => exact fun m h => h
  | cons e rest ih =>
    intro m h
    exact ih _ (wantedOf_mergeEntry_mono h)

theorem depsOf_mergeGraphData_mono {k : Id} {d : Id} {ch : String} :
    ∀ (ng : Graph) (m : NodeMap), d ∈ depsOf k m →
      d ∈ depsOf k (mergeGraphData m ch ng) := by
  intro ng
  induction ng with
  | nil => exact fun m h => h
  | cons e rest ih =>
    intro m h
    exact ih _ (depsOf_mergeEntry_mono h)

theorem mergeGraphData_declared {ch : String} :
    ∀ (ng : Graph) (m : NodeMap) (nid : Id) (deps : List Id),
      (nid, deps) ∈ ng →
      ch ∈ wantedOf nid (mergeGraphData m ch ng) ∧
      ∀ d ∈ deps, d ∈ depsOf nid (mergeGraphData m ch ng) := by
  intro ng
  induction ng with
  | nil => intro m nid deps h; cases h
  | cons e rest ih =>
    intro m nid deps h
    rcases List.mem_cons.mp h with rfl | h2
    · constructor
      · exact wantedOf_mergeGraphData_mono rest _
          (wantedOf_mergeEntry_self m ch nid deps)
      · intro d hd
        exact depsOf_mergeGraphData_mono rest _
          (depsOf_mergeEntry_self m ch nid deps d hd)
    · exact ih _ nid deps h2

theorem mergeGraphData_dep_frame {ch : String} {d : Id} :
    ∀ (ng : Graph) (m : NodeMap),
      (∀ deps2, (d, deps2) ∉ ng) →
      depsOf d (mergeGraphData m ch ng) = depsOf d m := by
  intro ng
  induction ng with
  | nil => intro m _; rfl
  | cons a rest ih =>
    obtain ⟨k1, ds1⟩ := a
    intro m hnk
    show depsOf d (mergeGraphData (mergeEntry m ch k1 ds1) ch rest) = _
    rw [ih _ (fun deps2 hmem => hnk deps2 (List.mem_cons_of_mem _ hmem))]
    have hne : d ≠ k1 := by
      intro hdd
      exact hnk ds1 (by rw [hdd]; exact List.mem_cons_self _ _)
    exact depsOf_mergeEntry_ne hne m ch ds1

theorem mergeGraphData_dep_wanted {ch : String} {d : Id} :
    ∀ (ng : Graph) (m : NodeMap),
      (∃ e ∈ ng, d ∈ (e : Id × List Id).2) →
      ch ∈ wantedOf d (mergeGraphData m ch ng) := by
  intro ng
  induction ng with
  | nil => rintro m ⟨e, he, -⟩; cases he
  | cons a rest ih =>
    obtain ⟨k1, ds1⟩ := a
    rintro m ⟨e, he, hd⟩
    rcases List.mem_cons.mp he with rfl | h2
    · exact wantedOf_mergeGraphData_mono rest _
        (wantedOf_mergeEntry_dep m ch k1 hd)
    · exact ih _ ⟨e, h2, hd⟩

theorem wantedOf_to_alGet {k : Id} {m : NodeMap} {ch : String}
    (h : ch ∈ wantedOf k m) :
    ∃ nm, alGet k m = some nm ∧ ch ∈ nm.wanted_by_reply_channels := by
  rw [wantedOf] at h
  cases h2 : alGet k m with
  | none => rw [h2] at h; cases h
  | some nm => rw [h2] at h; exact ⟨nm, rfl, h⟩

/-- C9 counterexample: submitting `{1: [2], 2: [3]}` to an empty graph.
Node 2 is a dependency of node 1 and also a key of the submitted graph: its
`depends_on` goes from empty (the node did not exist) to `[3]` — it gained
a dependency from this call, contradicting the universally quantified
"gained nothing" part of the claim. -/
theorem C9_dep_node_gains_dependencies :
    (ChangeSetGraph.merge_dependency_graph (⟨[]⟩ : ChangeSetGraph)
        "a" [(1, [2]), (2, [3])] 0) =
      .ok ⟨[(0, [(1, ⟨["a"], none, [2]⟩), (2, ⟨["a"], none, [3]⟩),
             (3, ⟨["a"], none, []⟩)])]⟩ ∧
    depsOf 2 ([] : NodeMap) = [] ∧
    depsOf 2 [(1, (⟨["a"], none, [2]⟩ : NodeMetadata)),
              (2, ⟨["a"], none, [3]⟩), (3, ⟨["a"], none, []⟩)] = [3] :=
  ⟨rfl, rfl, rfl⟩

/-- C9 (amended): after `merge_dependency_graph(reply_channel, new_graph,
change_set_id)`, for every `(node_id, deps)` pair of `new_graph` the change
set contains a node for `node_id` whose `wanted_by` contains
`reply_channel` and whose `depends_on` includes every element of `deps`;
and for every `d` in `deps` that is not itself a key of `new_graph`, the
change set also contains a node for `d` whose `wanted_by` contains
`reply_channel` and whose `depends_on` gained nothing from this call (a
dependency that is also a key of `new_graph` gains that key's
dependencies, see the counterexample). -/
theorem C9_merge_dependency_graph_tracks :
    ∀ (g : ChangeSetGraph) (ch : String) (ng : Graph) (cs : Id)
      (g' : ChangeSetGraph),
      g.merge_dependency_graph ch ng cs = .ok g' →
      ∃ csd', alGet cs g'.dependency_data = some csd' ∧
        (∀ nid deps, (nid, deps) ∈ ng →
          ∃ nm, alGet nid csd' = some nm ∧
            ch ∈ nm.wanted_by_reply_channels ∧
            ∀ d ∈ deps, d ∈ nm.depends_on_node_ids) ∧
        (∀ nid deps, (nid, deps) ∈ ng → ∀ d ∈ deps,
          (∀ deps2, (d, deps2) ∉ ng) →
          ∃ nm, alGet d csd' = some nm ∧
            ch ∈ nm.wanted_by_reply_channels ∧
            nm.depends_on_node_ids =
              depsOf d (match alGet cs g.dependency_data with
                        | some m => m
                        | none => [])) := by
  intro g ch ng cs g' hmk
  simp only [ChangeSetGraph.merge_dependency_graph, Except.ok.injEq] at hmk
  subst hmk
  have hpre : alGet cs (alEntry cs
      (fun m => mergeGraphData m ch ng) (mergeGraphData [] ch ng)
      g.dependency_data) =
      some (mergeGraphData (match alGet cs g.dependency_data with
            | some m => m | none => []) ch ng) := by
    rw [alGet_alEntry_self]
    cases h : alGet cs g.dependency_data <;> rfl
  refine ⟨mergeGraphData (match alGet cs g.dependency_data with
          | some m => m | none => []) ch ng, hpre, ?_, ?_⟩
  · intro nid deps hmem
    obtain ⟨hw, hd⟩ := mergeGraphData_declared ng _ nid deps hmem
    obtain ⟨nm, hget, hwm⟩ := wantedOf_to_alGet hw
    refine ⟨nm, hget, hwm, ?_⟩
    intro d hdd
    have := hd d hdd
    rw [depsOf, hget] at this
    exact this
  · intro nid deps hmem d hdd hnk
    have hw := @mergeGraphData_dep_wanted ch d ng
      (match alGet cs g.dependency_data with | some m => m | none => [])
      ⟨(nid, deps), hmem, hdd⟩
    obtain ⟨nm, hget, hwm⟩ := wantedOf_to_alGet hw
    refine ⟨nm, hget, hwm, ?_⟩
    have hfr := @mergeGraphData_dep_frame ch d ng
      (match alGet cs g.dependency_data with | some m => m | none => []) hnk
    rw [depsOf, hget] at hfr
    exact hfr

/-- Concrete instantiation of `C9_merge_dependency_graph_tracks`:
submitting `{1: [2]}` to an empty graph. -/
theorem C9_merge_dependency_graph_tracks_witness :
    ∃ csd',
      alGet 0 (⟨[(0, [(1, (⟨["a"], none, [2]⟩ : NodeMetadata)),
          (2, ⟨["a"], none, []⟩)])]⟩ : ChangeSetGraph).dependency_data =
        some csd' ∧
      (∀ nid deps, (nid, deps) ∈ ([(1, [2])] : Graph) →
        ∃ nm, alGet nid csd' = some nm ∧
          "a" ∈ nm.wanted_by_reply_channels ∧
          ∀ d ∈ deps, d ∈ nm.depends_on_node_ids) ∧
      (∀ nid deps, (nid, deps) ∈ ([(1, [2])] : Graph) → ∀ d ∈ deps,
        (∀ deps2, (d, deps2) ∉ ([(1, [2])] : Graph)) →
        ∃ nm, alGet d csd' = some nm ∧
          "a" ∈ nm.wanted_by_reply_channels ∧
          nm.depends_on_node_ids = depsOf d ([] : NodeMap)) :=
  C9_merge_dependency_graph_tracks ⟨[]⟩ "a" [(1, [2])] 0
    ⟨[(0, [(1, ⟨["a"], none, [2]⟩), (2, ⟨["a"], none, []⟩)])]⟩ rfl

/-! ## C3: characterization of fetch_all_available -/

/-- The claimed form of a node: the head of `wanted_by_reply_channels` is
moved into `processing_reply_channel`. -/
def claimedNode (n : NodeMetadata) : NodeMetadata :=
  { n with processing_reply_channel := n.wanted_by_reply_channels.head?,
           wanted_by_reply_channels := n.wanted_by_reply_channels.tail }

theorem next_to_process_eq (n : NodeMetadata) :
    n.next_to_process =
      if n.depends_on_node_ids.isEmpty && n.processing_reply_channel.isNone
      then (n.wanted_by_reply_channels.head?, claimedNode n)
      else (none, n) := rfl

theorem mem_fetchNodes_fst {m : NodeMap} {ch : String} {nid : Id} :
    (ch, nid) ∈ (fetchNodes m).1 ↔
      ∃ nm, (nid, nm) ∈ m ∧ nm.depends_on_node_ids.isEmpty = true ∧
        nm.processing_reply_channel = none ∧
        nm.wanted_by_reply_channels.head? = some ch := by
  induction m with
  | nil => simp [fetchNodes]
  | cons a rest ih =>
    obtain ⟨id, md⟩ := a
    show (ch, nid) ∈ (match (md.next_to_process).1 with
      | some c => (c, id) :: (fetchNodes rest).1
      | none => (fetchNodes rest).1) ↔ _
    by_cases hc : md.depends_on_node_ids.isEmpty = true ∧
        md.processing_reply_channel = none
    · have hcond : (md.depends_on_node_ids.isEmpty &&
          md.processing_reply_channel.isNone) = true := by
        simp [hc.1, hc.2]
      rw [next_to_process_eq, if_pos hcond]
      dsimp only
      cases hh : md.wanted_by_reply_channels.head? with
      | none =>
        dsimp only
        rw [ih]
        constructor
        · rintro ⟨nm, h1, h2, h3, h4⟩
          exact ⟨nm, List.mem_cons_of_mem _ h1, h2, h3, h4⟩
        · rintro ⟨nm, h1, h2, h3, h4⟩
          rcases List.mem_cons.mp h1 with heq | h1'
          · injection heq with hl hr
            subst hl
            subst hr
            simp [hh] at h4
          · exact ⟨nm, h1', h2, h3, h4⟩
      | some c =>
        dsimp only
        rw [List.mem_cons, ih]
        constructor
        · rintro (heq | ⟨nm, h1, h2, h3, h4⟩)
          · injection heq with hl hr
            subst hl
            subst hr
            exact ⟨md, List.mem_cons_self _ _, hc.1, hc.2, hh⟩
          · exact ⟨nm, List.mem_cons_of_mem _ h1, h2, h3, h4⟩
        · rintro ⟨nm, h1, h2, h3, h4⟩
          rcases List.mem_cons.mp h1 with heq | h1'
          · injection heq with hl hr
            subst hl
            subst hr
            rw [hh] at h4
            injection h4 with h5
            subst h5
            exact Or.inl rfl
          · exact Or.inr ⟨nm, h1', h2, h3, h4⟩
    · have hcond : ¬ (md.depends_on_node_ids.isEmpty &&
          md.processing_reply_channel.isNone) = true := by
        simp only [Bool.and_eq_true]
        rintro ⟨ha, hb⟩
        exact hc ⟨ha, Option.isNone_iff_eq_none.mp hb⟩
      rw [next_to_process_eq, if_neg hcond]
      dsimp only
      rw [ih]
      constructor
      · rintro ⟨nm, h1, h2, h3, h4⟩
        exact ⟨nm, List.mem_cons_of_mem _ h1, h2, h3, h4⟩
      · rintro ⟨nm, h1, h2, h3, h4⟩
        rcases List.mem_cons.mp h1 with heq | h1'
        · injection heq with hl hr
          subst hl
          subst hr
          exact absurd ⟨h2, h3⟩ hc
        · exact ⟨nm, h1', h2, h3, h4⟩

theorem mem_fetchGraphs_fst {l : List (Id × NodeMap)} {ch : String}
    {nid : Id} :
    (ch, nid) ∈ (fetchGraphs l).1 ↔
      ∃ cs csd, (cs, csd) ∈ l ∧ (ch, nid) ∈ (fetchNodes csd).1 := by
  induction l with
  | nil => simp [fetchGraphs]
  | cons a rest ih =>
    obtain ⟨cs0, m0⟩ := a
    show (ch, nid) ∈ (fetchNodes m0).1 ++ (fetchGraphs rest).1 ↔ _
    rw [List.mem_append, ih]
    constructor
    · rintro (h | ⟨cs, csd, hm, hf⟩)
      · exact ⟨cs0, m0, List.mem_cons_self _ _, h⟩
      · exact ⟨cs, csd, List.mem_cons_of_mem _ hm, hf⟩
    · rintro ⟨cs, csd, hm, hf⟩
      rcases List.mem_cons.mp hm with heq | hm2
      · injection heq with hl hr
        subst hl
        subst hr
        exact Or.inl hf
      · exact Or.inr ⟨cs, csd, hm2, hf⟩

theorem fetchNodes_snd_pointwise (m : NodeMap) :
    List.Forall₂ (fun e e' : Id × NodeMetadata => e'.1 = e.1 ∧
      ((e.2.depends_on_node_ids.isEmpty = true ∧
        e.2.processing_reply_channel = none ∧ e'.2 = claimedNode e.2) ∨
       (¬(e.2.depends_on_node_ids.isEmpty = true ∧
          e.2.processing_reply_channel = none) ∧ e'.2 = e.2)))
      m (fetchNodes m).2 := by
  induction m with
  | nil => exact List.Forall₂.nil
  | cons a rest ih =>
    obtain ⟨id, md⟩ := a
    refine List.Forall₂.cons ⟨rfl, ?_⟩ ih
    by_cases hc : md.depends_on_node_ids.isEmpty = true ∧
        md.processing_reply_channel = none
    · left
      refine ⟨hc.1, hc.2, ?_⟩
      show (md.next_to_process).2 = claimedNode md
      rw [next_to_process_eq, if_pos (by simp [hc.1, hc.2])]
    · right
      refine ⟨hc, ?_⟩
      show (md.next_to_process).2 = md
      rw [next_to_process_eq, if_neg ?_]
      simp only [Bool.and_eq_true]
      rintro ⟨ha, hb⟩
      exact hc ⟨ha, Option.isNone_iff_eq_none.mp hb⟩

theorem fetchGraphs_snd_pointwise (l : List (Id × NodeMap)) :
    List.Forall₂ (fun cse cse' : Id × NodeMap => cse'.1 = cse.1 ∧
      cse'.2 = (fetchNodes cse.2).2) l (fetchGraphs l).2 := by
  induction l with
  | nil => exact List.Forall₂.nil
  | cons a rest ih =>
    obtain ⟨cs0, m0⟩ := a
    exact List.Forall₂.cons ⟨rfl, rfl⟩ ih

/-- C3: a pair `(ch, nid)` is returned by `fetch_all_available` iff, in the
pre-state, some change set had a node `nid` with empty `depends_on`, unset
`processing`, and `ch` at the head of its `wanted_by`; and the post-state
is the pre-state rewritten pointwise — every claimable node (empty
`depends_on`, unset `processing`) has its `wanted_by` head popped into
`processing`, and every other node is unchanged. -/
theorem C3_fetch_all_available_spec :
    ∀ g : ChangeSetGraph,
      (∀ (ch : String) (nid : Id),
        (ch, nid) ∈ (g.fetch_all_available).1 ↔
          ∃ cs csd nm, (cs, csd) ∈ g.dependency_data ∧ (nid, nm) ∈ csd ∧
            nm.depends_on_node_ids.isEmpty = true ∧
            nm.processing_reply_channel = none ∧
            nm.wanted_by_reply_channels.head? = some ch) ∧
      List.Forall₂ (fun cse cse' : Id × NodeMap => cse'.1 = cse.1 ∧
        List.Forall₂ (fun e e' : Id × NodeMetadata => e'.1 = e.1 ∧
          ((e.2.depends_on_node_ids.isEmpty = true ∧
            e.2.processing_reply_channel = none ∧ e'.2 = claimedNode e.2) ∨
           (¬(e.2.depends_on_node_ids.isEmpty = true ∧
              e.2.processing_reply_channel = none) ∧ e'.2 = e.2)))
          cse.2 cse'.2)
        g.dependency_data (g.fetch_all_available).2.dependency_data := by
  intro g
  constructor
  · intro ch nid
    show (ch, nid) ∈ (fetchGraphs g.dependency_data).1 ↔ _
    rw [mem_fetchGraphs_fst]
    constructor
    · rintro ⟨cs, csd, hm, hf⟩
      obtain ⟨nm, h1, h2, h3, h4⟩ := mem_fetchNodes_fst.mp hf
      exact ⟨cs, csd, nm, hm, h1, h2, h3, h4⟩
    · rintro ⟨cs, csd, nm, hm, h1, h2, h3, h4⟩
      exact ⟨cs, csd, hm, mem_fetchNodes_fst.mpr ⟨nm, h1, h2, h3, h4⟩⟩
  · show List.Forall₂ _ g.dependency_data (fetchGraphs g.dependency_data).2
    refine List.Forall₂.imp ?_ (fetchGraphs_snd_pointwise g.dependency_data)
    rintro a b ⟨hb1, hb2⟩
    refine ⟨hb1, ?_⟩
    rw [hb2]
    exact fetchNodes_snd_pointwise a.2

/-- Concrete instantiation of `C3_fetch_all_available_spec`: channel "a"
claims the ready node 1. -/
theorem C3_fetch_all_available_spec_witness :
    ("a", 1) ∈ ((⟨[(0, [(1, ⟨["a"], none, []⟩)])]⟩ :
      ChangeSetGraph).fetch_all_available).1 :=
  ((C3_fetch_all_available_spec ⟨[(0, [(1, ⟨["a"], none, []⟩)])]⟩).1
      "a" 1).mpr
    ⟨0, [(1, ⟨["a"], none, []⟩)], ⟨["a"], none, []⟩,
      List.mem_cons_self _ _, List.mem_cons_self _ _, rfl, rfl, rfl⟩

end Council
